import Mathlib

set_option maxRecDepth 10000

/-
Verification of the SerialCommandHandler library (SerialCommandHandler.h /
SerialCommandHandler.cpp): a line-oriented command parser and dispatcher.
Arduino String values are modelled as lists of characters; the Arduino
String operations used by the source (trim, operator[], substring, indexOf,
length, equals) are modelled faithfully, including the unsigned 32-bit
index arithmetic at the call sites that subtract from the length.
-/

namespace SerialCommand

/-- Arduino String contents, modelled as a list of characters. -/
abbrev AString := List Char

/-- Build an AString from a Lean string literal. -/
def strA (s : String) : AString := s.data

/-- The C isspace predicate on ASCII, used by Arduino String::trim. -/
def isSpaceC (c : Char) : Bool :=
  c = ' ' || c = '\t' || c = '\n' || c = '\x0b' || c = '\x0c' || c = '\r'

/-- Arduino String::trim: remove isspace characters from both ends. -/
def trimC (s : AString) : AString :=
  ((s.dropWhile isSpaceC).reverse.dropWhile isSpaceC).reverse

/-- Unsigned 32-bit subtraction, as performed on the unsigned int result of
String::length() at the call sites length() - 1 and length() - 2. -/
def usub32 (a b : Nat) : Nat := (a + 4294967296 - b) % 4294967296

/-- Arduino String::operator[] / charAt: the character at the index, or the
NUL character when the index is out of range. -/
def charAtC (s : AString) (i : Nat) : Char := s.getD i '\x00'

/-- Arduino String::substring(left, right): swaps the bounds if needed,
clamps right to the length, and returns the characters in [left, right)
(empty when left is not below the length). -/
def substringC (s : AString) (left right : Nat) : AString :=
  if s.length ≤ min left right then []
  else (s.take (min (max left right) s.length)).drop (min left right)

/-- Arduino String::substring(from): the suffix starting at the index. -/
def substrFromC (s : AString) (i : Nat) : AString := substringC s i s.length

/-- Arduino String::indexOf(char): index of the first occurrence, none when
the character does not occur (the C source returns -1 there). -/
def idxOfC (d : Char) : AString → Option Nat
  | [] => none
  | c :: cs => if c = d then some 0 else (idxOfC d cs).map (· + 1)

/-- Occurrence count of a character, as the counting loop in
Command::splitArgString computes it. -/
def countC (d : Char) : AString → Nat
  | [] => 0
  | c :: cs => (if c = d then 1 else 0) + countC d cs

/-- The CMD_ERROR enumeration of SerialCommandHandler.h. -/
inductive CMD_ERROR where
  | ERR_NONE
  | ERR_MISSING_START_CHAR
  | ERR_MISSING_STOP_CHAR
  | ERR_MISSING_DELIMITER
  | ERR_INVALID_CMD
  | ERR_NO_MATCHING_CMD
  | ERR_TOO_FEW_ARGS
  | ERR_TOO_MANY_ARGS
  | ERR_NO_ARGS
  | ERR_INVALID_ARG
  deriving DecidableEq

/-- A registered command: name and callback, as built by the Command
constructor. -/
structure CmdSpec where
  cmd_name : AString
  callback : List AString → Int → CMD_ERROR

/-- The static members of class Command: the three configured characters and
the registered dictionary (the dictionary pointer together with
command_count is modelled as the list of the command_count entries). -/
structure ParserState where
  start_char : Char
  stop_char : Char
  delimiter : Char
  command_dictionary : List CmdSpec

/-- Command::MAX_ARGS. -/
def MAX_ARGS : Nat := 10

/-- Result of a call to Command::splitArgString: the returned error code and
the values of the two out-parameters after the call. -/
structure SplitOut where
  err : CMD_ERROR
  buff : List AString
  count : Int

/-- The token-producing loop of Command::splitArgString: iteration i with
i < delimiter_count slices up to the first delimiter via substring and drops
past it; the last iteration takes the remaining text whole. The fuel is the
number of slicing iterations left (delimiter_count at the first call). When
indexOf finds no delimiter the C code computes substring(0, -1) and
substring(0), which with the unsigned clamping both yield the whole string. -/
def splitLoop (delim : Char) : Nat → AString → List AString
  | 0, s => [s]
  | Nat.succ k, s =>
    match idxOfC delim s with
    | some i => substringC s 0 i :: splitLoop delim k (substrFromC s (i + 1))
    | none => s :: splitLoop delim k s

/-- Command::splitArgString: trim the argument string; fail with ERR_NO_ARGS
when it is then empty, leaving both out-parameters untouched; otherwise
count the delimiters, store count+1 in the count out-parameter, write the
count+1 tokens into the buffer from index 0 (past its end when there are
more tokens than slots), and return ERR_NONE. -/
def splitArgString (delim : Char) (arg_buff : List AString) (arg_str : AString)
    (arg_count_buff : Int) : SplitOut :=
  if (trimC arg_str).length < 1 then
    ⟨CMD_ERROR.ERR_NO_ARGS, arg_buff, arg_count_buff⟩
  else
    ⟨CMD_ERROR.ERR_NONE,
     splitLoop delim (countC delim (trimC arg_str)) (trimC arg_str) ++
       arg_buff.drop (splitLoop delim (countC delim (trimC arg_str)) (trimC arg_str)).length,
     (countC delim (trimC arg_str) : Int) + 1⟩

/-- The local buffer String args[MAX_ARGS] of Command::process: MAX_ARGS
default-constructed (empty) strings. -/
def emptyArgs : List AString := List.replicate MAX_ARGS []

/-- Start-frame check of Command::process: when start_char is configured
(non-NUL), the first character must equal it, else ERR_MISSING_START_CHAR;
on success the leading character is removed via substring(1). -/
def checkStart (st : ParserState) (s : AString) : Except CMD_ERROR AString :=
  if st.start_char = '\x00' then Except.ok s
  else if charAtC s 0 = st.start_char then Except.ok (substrFromC s 1)
  else Except.error CMD_ERROR.ERR_MISSING_START_CHAR

/-- Stop-frame check of Command::process: when stop_char is configured, the
character at index length()-1 (unsigned) must equal it, else
ERR_MISSING_STOP_CHAR; on success the line is replaced by
substring(0, length()-2) (unsigned arithmetic, clamped). -/
def checkStop (st : ParserState) (s : AString) : Except CMD_ERROR AString :=
  if st.stop_char = '\x00' then Except.ok s
  else if charAtC s (usub32 s.length 1) = st.stop_char then
    Except.ok (substringC s 0 (usub32 s.length 2))
  else Except.error CMD_ERROR.ERR_MISSING_STOP_CHAR

/-- The transient parse result of Command::process: command name, the args
buffer as handed to the callback, and arg_count. -/
structure ParsedLine where
  cmd_name : AString
  args : List AString
  arg_count : Int
  deriving DecidableEq

/-- Name/argument separation of Command::process: locate the first delimiter;
with none, the whole text is the command name, the args buffer stays empty
and arg_count stays 0; otherwise the text before the delimiter is the name,
the trimmed text after it is the argument string, and when that is non-empty
splitArgString fills the buffer and the count, its error (if any) being
returned. -/
def parseNameArgs (st : ParserState) (s : AString) : Except CMD_ERROR ParsedLine :=
  match idxOfC st.delimiter s with
  | none => Except.ok ⟨s, emptyArgs, 0⟩
  | some i =>
    if (trimC (substrFromC s (i + 1))).length ≠ 0 then
      if (splitArgString st.delimiter emptyArgs (trimC (substrFromC s (i + 1))) 0).err ≠
          CMD_ERROR.ERR_NONE then
        Except.error (splitArgString st.delimiter emptyArgs (trimC (substrFromC s (i + 1))) 0).err
      else
        Except.ok ⟨substringC s 0 i,
          (splitArgString st.delimiter emptyArgs (trimC (substrFromC s (i + 1))) 0).buff,
          (splitArgString st.delimiter emptyArgs (trimC (substrFromC s (i + 1))) 0).count⟩
    else Except.ok ⟨substringC s 0 i, emptyArgs, 0⟩

/-- The pipeline of Command::process from the stop-frame check onward. -/
def parseFrom2 (st : ParserState) (s : AString) : Except CMD_ERROR ParsedLine :=
  match checkStop st s with
  | Except.error e => Except.error e
  | Except.ok s2 => parseNameArgs st s2

/-- The parsing stage of Command::process: trim, start check, stop check,
name/argument separation and tokenization. -/
def parseLine (st : ParserState) (input : AString) : Except CMD_ERROR ParsedLine :=
  match checkStart st (trimC input) with
  | Except.error e => Except.error e
  | Except.ok s1 => parseFrom2 st s1

/-- The dictionary scan of Command::process: first entry whose name equals
the parsed name (String::equals, exact and case-sensitive) gets its callback
invoked with the args buffer and arg_count; with no match,
ERR_NO_MATCHING_CMD. -/
def dispatch (args : List AString) (arg_count : Int) (cmd_name : AString) :
    List CmdSpec → CMD_ERROR
  | [] => CMD_ERROR.ERR_NO_MATCHING_CMD
  | c :: rest =>
    if c.cmd_name = cmd_name then c.callback args arg_count
    else dispatch args arg_count cmd_name rest

/-- Command::process. -/
def process (st : ParserState) (input : AString) : CMD_ERROR :=
  match parseLine st input with
  | Except.error e => e
  | Except.ok p => dispatch p.args p.arg_count p.cmd_name st.command_dictionary

/-- Command::process restarted after a successful start-frame check: the
remaining pipeline applied to the start-stripped line. -/
def processFrom2 (st : ParserState) (s : AString) : CMD_ERROR :=
  match parseFrom2 st s with
  | Except.error e => e
  | Except.ok p => dispatch p.args p.arg_count p.cmd_name st.command_dictionary

/-- Joining a token list with the delimiter character between tokens. -/
def joinC (d : Char) : List AString → AString
  | [] => []
  | [t] => t
  | t :: ts => t ++ d :: joinC d ts

/-- Command::splitArgString in state-passing form: the static configuration
and dictionary are threaded through and returned; the body assigns only to
locals and to the two out-parameters, never to a static member. -/
def splitArgStringSt (st : ParserState) (arg_buff : List AString) (arg_str : AString)
    (arg_count_buff : Int) : SplitOut × ParserState :=
  (splitArgString st.delimiter arg_buff arg_str arg_count_buff, st)

/-- Command::process in state-passing form: every read of a static member
goes through the threaded state, and the returned state is whatever the body
leaves behind; the body assigns only to locals. -/
def processSt (st : ParserState) (input : AString) : CMD_ERROR × ParserState :=
  match checkStart st (trimC input) with
  | Except.error e => (e, st)
  | Except.ok s1 =>
    match checkStop st s1 with
    | Except.error e => (e, st)
    | Except.ok s2 =>
      match idxOfC st.delimiter s2 with
      | none => (dispatch emptyArgs 0 s2 st.command_dictionary, st)
      | some i =>
        if (trimC (substrFromC s2 (i + 1))).length ≠ 0 then
          if (splitArgStringSt st emptyArgs (trimC (substrFromC s2 (i + 1))) 0).1.err ≠
              CMD_ERROR.ERR_NONE then
            ((splitArgStringSt st emptyArgs (trimC (substrFromC s2 (i + 1))) 0).1.err,
             (splitArgStringSt st emptyArgs (trimC (substrFromC s2 (i + 1))) 0).2)
          else
            (dispatch (splitArgStringSt st emptyArgs (trimC (substrFromC s2 (i + 1))) 0).1.buff
              (splitArgStringSt st emptyArgs (trimC (substrFromC s2 (i + 1))) 0).1.count
              (substringC s2 0 i)
              (splitArgStringSt st emptyArgs (trimC (substrFromC s2 (i + 1))) 0).2.command_dictionary,
             (splitArgStringSt st emptyArgs (trimC (substrFromC s2 (i + 1))) 0).2)
        else (dispatch emptyArgs 0 (substringC s2 0 i) st.command_dictionary, st)

/-- Command::setCommandDictionary: replaces the registry reference and the
count (here: the registry list). -/
def setCommandDictionary (st : ParserState) (dictionary : List CmdSpec) : ParserState :=
  { st with command_dictionary := dictionary }

/-- The error codes the spec reserves: per the spec they are never raised by
the core pipeline itself. -/
def reservedError (e : CMD_ERROR) : Prop :=
  e = CMD_ERROR.ERR_MISSING_DELIMITER ∨ e = CMD_ERROR.ERR_INVALID_CMD ∨
  e = CMD_ERROR.ERR_TOO_FEW_ARGS ∨ e = CMD_ERROR.ERR_TOO_MANY_ARGS ∨
  e = CMD_ERROR.ERR_INVALID_ARG

/-- Claim C1: refuted by evaluation. With start char < and stop char >
configured, processing the line <cmd arg1> does not remove exactly one
trailing framing character: substring(0, length()-2) removes the last two
characters, so the parsed argument substring is arg, not arg1. -/
theorem stop_strip_removes_two_chars :
    parseLine ⟨'<', '>', ' ', []⟩ (strA "<cmd arg1>") =
      Except.ok ⟨strA "cmd", strA "arg" :: List.replicate 9 [], 1⟩ := by
  rfl

/-- Claim C2: refuted by evaluation. An argument string of 11 tokens
(10 delimiters, exceeding MAX_ARGS = 10 slots) makes splitArgString return
ERR_NONE with count 11 and 11 written tokens instead of failing: the token
count exceeding the buffer capacity is not detected. -/
theorem split_overflow_unchecked :
    (splitArgString ' ' emptyArgs (strA "a a a a a a a a a a a") 0).err =
        CMD_ERROR.ERR_NONE ∧
      (splitArgString ' ' emptyArgs (strA "a a a a a a a a a a a") 0).count = 11 ∧
      (splitArgString ' ' emptyArgs (strA "a a a a a a a a a a a") 0).buff.length = 11 ∧
      MAX_ARGS < 11 := by
  refine ⟨rfl, rfl, rfl, by decide⟩

/-- substring(0, i) is the i-character prefix. -/
theorem substringC_zero (s : AString) (i : Nat) : substringC s 0 i = s.take i := by
  unfold substringC
  rw [min_eq_left (Nat.zero_le i), max_eq_right (Nat.zero_le i)]
  split
  · next hl =>
    have hs : s = [] := List.eq_nil_of_length_eq_zero (Nat.le_zero.mp hl)
    simp [hs]
  · rw [List.drop_zero]
    rcases Nat.le_total i s.length with h | h
    · rw [min_eq_left h]
    · rw [min_eq_right h, List.take_length, List.take_of_length_le h]

/-- substring(i) is the drop of the first i characters. -/
theorem substrFromC_drop (s : AString) (i : Nat) : substrFromC s i = s.drop i := by
  unfold substrFromC substringC
  split
  · next hc =>
    have hli : s.length ≤ i := le_trans hc (min_le_left _ _)
    exact (List.drop_eq_nil_of_le hli).symm
  · next hc =>
    have hil : i ≤ s.length := by
      by_contra hno
      exact hc (by rw [min_eq_right (le_of_not_le hno)])
    rw [max_eq_right hil, min_self, List.take_length, min_eq_left hil]

/-- The split loop produces fuel + 1 tokens. -/
theorem splitLoop_length (d : Char) : ∀ (k : Nat) (s : AString),
    (splitLoop d k s).length = k + 1
  | 0, _ => rfl
  | Nat.succ k, s => by
    unfold splitLoop
    cases idxOfC d s <;> simp [splitLoop_length d k]

/-- The split loop never produces an empty token list. -/
theorem splitLoop_ne_nil (d : Char) (k : Nat) (s : AString) : splitLoop d k s ≠ [] := by
  intro h
  have := splitLoop_length d k s
  rw [h] at this
  simp at this

/-- Character counts add over append. -/
theorem countC_append (d : Char) : ∀ (a b : AString),
    countC d (a ++ b) = countC d a + countC d b
  | [], _ => by simp [countC]
  | c :: cs, b => by
    have ih := countC_append d cs b
    simp only [List.cons_append, countC, List.append_eq] at ih ⊢
    omega

/-- When indexOf finds no occurrence, the count is zero. -/
theorem idxOfC_none_count (d : Char) : ∀ s : AString, idxOfC d s = none → countC d s = 0
  | [], _ => rfl
  | c :: cs, h => by
    unfold idxOfC at h
    by_cases hc : c = d
    · rw [if_pos hc] at h
      exact absurd h (by simp)
    · rw [if_neg hc] at h
      have hcs : idxOfC d cs = none := by
        cases hx : idxOfC d cs
        · rfl
        · rw [hx] at h; simp at h
      simp only [countC, if_neg hc, idxOfC_none_count d cs hcs]

/-- Decomposition at the first occurrence found by indexOf: the prefix before
index i is occurrence-free and the character at i is the one searched for. -/
theorem idxOfC_some_decomp (d : Char) : ∀ (s : AString) (i : Nat), idxOfC d s = some i →
    s.take i ++ d :: s.drop (i + 1) = s ∧ countC d (s.take i) = 0
  | [], i, h => by simp [idxOfC] at h
  | c :: cs, i, h => by
    unfold idxOfC at h
    by_cases hc : c = d
    · rw [if_pos hc] at h
      have hi : i = 0 := by
        have := Option.some.inj h
        omega
      subst hi
      subst hc
      exact ⟨by simp, rfl⟩
    · rw [if_neg hc] at h
      cases hx : idxOfC d cs with
      | none => rw [hx] at h; simp at h
      | some j =>
        rw [hx] at h
        simp only [Option.map_some'] at h
        have hi : i = j + 1 := (Option.some.inj h).symm
        subst hi
        obtain ⟨h1, h2⟩ := idxOfC_some_decomp d cs j hx
        constructor
        · simpa [List.take_succ_cons, List.drop_succ_cons] using congrArg (c :: ·) h1
        · simp only [List.take_succ_cons, countC, if_neg hc, h2]

/-- Dropping past the first occurrence removes exactly one occurrence. -/
theorem idxOfC_count (d : Char) (s : AString) (i : Nat) (h : idxOfC d s = some i) :
    countC d (s.drop (i + 1)) + 1 = countC d s := by
  obtain ⟨h1, h2⟩ := idxOfC_some_decomp d s i h
  have h3 : countC d s = countC d (s.take i) + countC d (d :: s.drop (i + 1)) := by
    conv_lhs => rw [← h1]
    exact countC_append d _ _
  have h4 : countC d (d :: s.drop (i + 1)) = 1 + countC d (s.drop (i + 1)) := by
    simp [countC]
  omega

/-- joinC on a list of two or more tokens. -/
theorem joinC_cons (d : Char) (t : AString) {ts : List AString} (h : ts ≠ []) :
    joinC d (t :: ts) = t ++ d :: joinC d ts := by
  cases ts with
  | nil => exact absurd rfl h
  | cons a l => rfl

/-- Joining the tokens of the split loop with the delimiter rebuilds the
input, provided the fuel is the occurrence count of the delimiter. -/
theorem joinC_splitLoop (d : Char) : ∀ (k : Nat) (s : AString), countC d s = k →
    joinC d (splitLoop d k s) = s
  | 0, s, _ => rfl
  | Nat.succ k, s, h => by
    cases hx : idxOfC d s with
    | none =>
      have := idxOfC_none_count d s hx
      omega
    | some i =>
      simp only [splitLoop, hx]
      rw [substringC_zero, substrFromC_drop]
      rw [joinC_cons d _ (splitLoop_ne_nil d k _)]
      have hk : countC d (s.drop (i + 1)) = k := by
        have := idxOfC_count d s i hx
        omega
      rw [joinC_splitLoop d k _ hk]
      exact (idxOfC_some_decomp d s i hx).1

/-- Claim C6: on an input that is empty or whitespace-only after trimming,
splitArgString returns ERR_NO_ARGS and leaves the token buffer and the count
out-parameter untouched. -/
theorem split_empty_no_args (d : Char) (b : List AString) (s : AString) (c0 : Int)
    (h : trimC s = []) : splitArgString d b s c0 = ⟨CMD_ERROR.ERR_NO_ARGS, b, c0⟩ := by
  unfold splitArgString
  rw [if_pos (by simp [h])]

/-- Claim C6 witness: a whitespace-only input at concrete values. -/
theorem split_empty_no_args_witness :
    splitArgString ' ' emptyArgs (strA "   ") 0 = ⟨CMD_ERROR.ERR_NO_ARGS, emptyArgs, 0⟩ :=
  split_empty_no_args ' ' emptyArgs (strA "   ") 0 (by decide)

/-- Claim C5: on an input that is non-empty after trimming, the tokenizer
succeeds and produces exactly d + 1 tokens, d being the delimiter count of
the trimmed input: the stored count is d + 1 and the token loop yields a
list of that length; moreover tokenizing a double-delimiter input preserves
the empty middle token, and the two spec examples evaluate as stated. -/
theorem split_token_count (d : Char) (b : List AString) (s : AString) (c0 : Int)
    (h : trimC s ≠ []) :
    (splitArgString d b s c0).err = CMD_ERROR.ERR_NONE ∧
      (splitArgString d b s c0).count = (countC d (trimC s) : Int) + 1 ∧
      (splitLoop d (countC d (trimC s)) (trimC s)).length = countC d (trimC s) + 1 ∧
      (splitArgString ' ' emptyArgs (strA "a  b") 0).count = 3 ∧
      (splitArgString ' ' emptyArgs (strA "a  b") 0).buff.take 3 = [strA "a", [], strA "b"] ∧
      (splitArgString ' ' emptyArgs (strA "a b c") 0).count = 3 ∧
      (splitArgString ' ' emptyArgs (strA "a b c") 0).buff.take 3 =
        [strA "a", strA "b", strA "c"] := by
  have hl : ¬ (trimC s).length < 1 := by
    cases hx : trimC s
    · exact absurd hx h
    · simp [hx]
  refine ⟨?_, ?_, splitLoop_length d _ _, by decide, by decide, by decide, by decide⟩
  · unfold splitArgString
    rw [if_neg hl]
  · unfold splitArgString
    rw [if_neg hl]

/-- Claim C5 witness: the token-count theorem applied to the spec input. -/
theorem split_token_count_witness :
    (splitArgString ' ' emptyArgs (strA "a b c") 0).err = CMD_ERROR.ERR_NONE ∧
      (splitArgString ' ' emptyArgs (strA "a b c") 0).count =
        (countC ' ' (trimC (strA "a b c")) : Int) + 1 :=
  ⟨(split_token_count ' ' emptyArgs (strA "a b c") 0 (by decide)).1,
   (split_token_count ' ' emptyArgs (strA "a b c") 0 (by decide)).2.1⟩

/-- Claim C10: on an input that is non-empty after trimming and has fewer
than MAX_ARGS delimiter occurrences, splitArgString returns ERR_NONE and
joining its produced tokens (the first count entries of the buffer) with the
delimiter rebuilds exactly the trimmed input. -/
theorem split_join_roundtrip (d : Char) (s : AString)
    (h1 : trimC s ≠ []) (_h2 : countC d (trimC s) < MAX_ARGS) :
    (splitArgString d emptyArgs s 0).err = CMD_ERROR.ERR_NONE ∧
      (splitArgString d emptyArgs s 0).count = (countC d (trimC s) : Int) + 1 ∧
      joinC d ((splitArgString d emptyArgs s 0).buff.take (countC d (trimC s) + 1)) =
        trimC s := by
  have hl : ¬ (trimC s).length < 1 := by
    cases hx : trimC s
    · exact absurd hx h1
    · simp [hx]
  unfold splitArgString
  rw [if_neg hl]
  refine ⟨rfl, rfl, ?_⟩
  have hlen : (splitLoop d (countC d (trimC s)) (trimC s)).length =
      countC d (trimC s) + 1 := splitLoop_length d _ _
  simp only
  rw [← hlen, List.take_left, joinC_splitLoop d _ _ rfl]

/-- Claim C10 witness: the round-trip theorem applied at a concrete input. -/
theorem split_join_roundtrip_witness :
    joinC ' ' ((splitArgString ' ' emptyArgs (strA " a b ") 0).buff.take
        (countC ' ' (trimC (strA " a b ")) + 1)) = trimC (strA " a b ") :=
  (split_join_roundtrip ' ' (strA " a b ") (by decide) (by decide)).2.2

/-- The dictionary scan picks the first entry with a matching name. -/
theorem dispatch_first (args : List AString) (cnt : Int) (name : AString) (c : CmdSpec) :
    ∀ (pre post : List CmdSpec), (∀ x ∈ pre, x.cmd_name ≠ name) → c.cmd_name = name →
      dispatch args cnt name (pre ++ c :: post) = c.callback args cnt
  | [], _, _, hc => by simp only [List.nil_append, dispatch, if_pos hc]
  | x :: pre, post, hpre, hc => by
    have hx : x.cmd_name ≠ name := hpre x (List.mem_cons_self x pre)
    simp only [List.cons_append, dispatch, if_neg hx]
    exact dispatch_first args cnt name c pre post
      (fun y hy => hpre y (List.mem_cons_of_mem x hy)) hc

/-- The dictionary scan with no matching name returns ERR_NO_MATCHING_CMD. -/
theorem dispatch_no_match (args : List AString) (cnt : Int) (name : AString) :
    ∀ dict : List CmdSpec, (∀ x ∈ dict, x.cmd_name ≠ name) →
      dispatch args cnt name dict = CMD_ERROR.ERR_NO_MATCHING_CMD
  | [], _ => rfl
  | x :: rest, h => by
    have hx : x.cmd_name ≠ name := h x (List.mem_cons_self x rest)
    simp only [dispatch, if_neg hx]
    exact dispatch_no_match args cnt name rest (fun y hy => h y (List.mem_cons_of_mem x hy))

/-- Every dictionary scan result is either the no-match code or the value of
some registered callback at the parsed arguments. -/
theorem dispatch_result_cases (args : List AString) (cnt : Int) (name : AString) :
    ∀ dict : List CmdSpec, dispatch args cnt name dict = CMD_ERROR.ERR_NO_MATCHING_CMD ∨
      ∃ c, c ∈ dict ∧ dispatch args cnt name dict = c.callback args cnt
  | [] => Or.inl rfl
  | x :: rest => by
    by_cases hx : x.cmd_name = name
    · exact Or.inr ⟨x, List.mem_cons_self x rest, by simp only [dispatch, if_pos hx]⟩
    · rcases dispatch_result_cases args cnt name rest with h | ⟨c, hm, he⟩
      · exact Or.inl (by simp only [dispatch, if_neg hx]; exact h)
      · exact Or.inr ⟨c, List.mem_cons_of_mem x hm, by simp only [dispatch, if_neg hx]; exact he⟩

/-- splitArgString returns either ERR_NO_ARGS or ERR_NONE. -/
theorem splitArgString_err_cases (d : Char) (b : List AString) (s : AString) (c0 : Int) :
    (splitArgString d b s c0).err = CMD_ERROR.ERR_NO_ARGS ∨
      (splitArgString d b s c0).err = CMD_ERROR.ERR_NONE := by
  unfold splitArgString
  split
  · exact Or.inl rfl
  · exact Or.inr rfl

/-- The only error the name/argument separation stage can raise is
ERR_NO_ARGS (propagated from splitArgString). -/
theorem parseNameArgs_error_cases (st : ParserState) (s : AString) (e : CMD_ERROR)
    (h : parseNameArgs st s = Except.error e) : e = CMD_ERROR.ERR_NO_ARGS := by
  cases hx : idxOfC st.delimiter s with
  | none => simp [parseNameArgs, hx] at h
  | some i =>
    simp only [parseNameArgs, hx] at h
    by_cases hl : (trimC (substrFromC s (i + 1))).length ≠ 0
    · rw [if_pos hl] at h
      by_cases he : (splitArgString st.delimiter emptyArgs (trimC (substrFromC s (i + 1))) 0).err ≠
          CMD_ERROR.ERR_NONE
      · rw [if_pos he] at h
        have hee := Except.error.inj h
        rcases splitArgString_err_cases st.delimiter emptyArgs
            (trimC (substrFromC s (i + 1))) 0 with h1 | h1
        · rw [← hee, h1]
        · exact absurd h1 he
      · rw [if_neg he] at h
        simp at h
    · rw [if_neg hl] at h
      simp at h

/-- The only error the start-frame check can raise is
ERR_MISSING_START_CHAR. -/
theorem checkStart_error_cases (st : ParserState) (s : AString) (e : CMD_ERROR)
    (h : checkStart st s = Except.error e) : e = CMD_ERROR.ERR_MISSING_START_CHAR := by
  unfold checkStart at h
  split at h
  · simp at h
  · split at h
    · simp at h
    · exact (Except.error.inj h).symm

/-- The errors of the pipeline after the start check are the stop-frame
error and ERR_NO_ARGS. -/
theorem parseFrom2_error_cases (st : ParserState) (s : AString) (e : CMD_ERROR)
    (h : parseFrom2 st s = Except.error e) :
    e = CMD_ERROR.ERR_MISSING_STOP_CHAR ∨ e = CMD_ERROR.ERR_NO_ARGS := by
  unfold parseFrom2 at h
  cases hx : checkStop st s with
  | error e2 =>
    rw [hx] at h
    have he2 : e2 = CMD_ERROR.ERR_MISSING_STOP_CHAR := by
      unfold checkStop at hx
      split at hx
      · simp at hx
      · split at hx
        · simp at hx
        · exact (Except.error.inj hx).symm
    left
    have := Except.error.inj h
    rw [← this, he2]
  | ok s2 =>
    rw [hx] at h
    exact Or.inr (parseNameArgs_error_cases st s2 e h)

/-- The errors of the whole parsing stage are the two framing errors and
ERR_NO_ARGS. -/
theorem parseLine_error_cases (st : ParserState) (input : AString) (e : CMD_ERROR)
    (h : parseLine st input = Except.error e) :
    e = CMD_ERROR.ERR_MISSING_START_CHAR ∨ e = CMD_ERROR.ERR_MISSING_STOP_CHAR ∨
      e = CMD_ERROR.ERR_NO_ARGS := by
  unfold parseLine at h
  cases hx : checkStart st (trimC input) with
  | error e2 =>
    rw [hx] at h
    left
    have := Except.error.inj h
    rw [← this, checkStart_error_cases st (trimC input) e2 hx]
  | ok s1 =>
    rw [hx] at h
    exact Or.inr (parseFrom2_error_cases st s1 e h)

/-- process, factored at the start-frame check. -/
theorem process_factor_start (st : ParserState) (input : AString) :
    process st input = match checkStart st (trimC input) with
      | Except.error e => e
      | Except.ok s1 => processFrom2 st s1 := by
  cases hx : checkStart st (trimC input) <;>
    simp only [process, parseLine, processFrom2, hx]

/-- Claim C3: when parsing succeeds and the dictionary, in registration
order, has a first entry whose name equals the parsed command name exactly,
process returns that entry's callback applied to the parsed argument buffer
and count, verbatim. -/
theorem process_first_match (st : ParserState) (input : AString) (p : ParsedLine)
    (pre : List CmdSpec) (c : CmdSpec) (post : List CmdSpec)
    (hp : parseLine st input = Except.ok p)
    (hd : st.command_dictionary = pre ++ c :: post)
    (hpre : ∀ x ∈ pre, x.cmd_name ≠ p.cmd_name)
    (hc : c.cmd_name = p.cmd_name) :
    process st input = c.callback p.args p.arg_count := by
  simp only [process, hp]
  rw [hd]
  exact dispatch_first p.args p.arg_count p.cmd_name c pre post hpre hc

/-- Claim C3 witness: with a registry holding a non-matching entry followed
by two entries named cmd, processing cmd a b returns exactly the code of the
first cmd entry (the second entry and its different code are never used). -/
theorem process_first_match_witness :
    process ⟨'\x00', '\x00', ' ',
        [⟨strA "zzz", fun _ _ => CMD_ERROR.ERR_NONE⟩,
         ⟨strA "cmd", fun _ _ => CMD_ERROR.ERR_TOO_MANY_ARGS⟩,
         ⟨strA "cmd", fun _ _ => CMD_ERROR.ERR_NONE⟩]⟩ (strA "cmd a b") =
      CMD_ERROR.ERR_TOO_MANY_ARGS :=
  process_first_match
    ⟨'\x00', '\x00', ' ',
      [⟨strA "zzz", fun _ _ => CMD_ERROR.ERR_NONE⟩,
       ⟨strA "cmd", fun _ _ => CMD_ERROR.ERR_TOO_MANY_ARGS⟩,
       ⟨strA "cmd", fun _ _ => CMD_ERROR.ERR_NONE⟩]⟩
    (strA "cmd a b")
    ⟨strA "cmd", strA "a" :: strA "b" :: List.replicate 8 [], 2⟩
    [⟨strA "zzz", fun _ _ => CMD_ERROR.ERR_NONE⟩]
    ⟨strA "cmd", fun _ _ => CMD_ERROR.ERR_TOO_MANY_ARGS⟩
    [⟨strA "cmd", fun _ _ => CMD_ERROR.ERR_NONE⟩]
    rfl rfl
    (by
      intro x hx
      rw [List.mem_singleton] at hx
      subst hx
      decide)
    rfl

/-- Claim C4: when parsing succeeds and no dictionary entry's name equals
the parsed command name (exactly, case-sensitively), process returns
ERR_NO_MATCHING_CMD; since this holds whatever the callbacks are, no
handler's result is involved. -/
theorem process_no_matching (st : ParserState) (input : AString) (p : ParsedLine)
    (hp : parseLine st input = Except.ok p)
    (hnone : ∀ x ∈ st.command_dictionary, x.cmd_name ≠ p.cmd_name) :
    process st input = CMD_ERROR.ERR_NO_MATCHING_CMD := by
  simp only [process, hp]
  exact dispatch_no_match p.args p.arg_count p.cmd_name st.command_dictionary hnone

/-- Claim C4 witness: Cmd does not match the registered cmd (matching is
case-sensitive), so the non-empty registry yields ERR_NO_MATCHING_CMD. -/
theorem process_no_matching_witness :
    process ⟨'\x00', '\x00', ' ', [⟨strA "cmd", fun _ _ => CMD_ERROR.ERR_NONE⟩]⟩
        (strA "Cmd") = CMD_ERROR.ERR_NO_MATCHING_CMD :=
  process_no_matching
    ⟨'\x00', '\x00', ' ', [⟨strA "cmd", fun _ _ => CMD_ERROR.ERR_NONE⟩]⟩
    (strA "Cmd") ⟨strA "Cmd", emptyArgs, 0⟩ rfl
    (by
      intro x hx
      rw [List.mem_singleton] at hx
      subst hx
      decide)

/-- Claim C7: with a start-frame character configured (and handlers that do
not themselves return the start-frame error code), process returns
ERR_MISSING_START_CHAR exactly when the first character of the trimmed line
differs from the configured start character; when it matches, process
continues on the line with that single leading character removed. -/
theorem process_start_check (st : ParserState) (input : AString)
    (hs : st.start_char ≠ '\x00')
    (hh : ∀ c ∈ st.command_dictionary, ∀ a n,
      c.callback a n ≠ CMD_ERROR.ERR_MISSING_START_CHAR) :
    (process st input = CMD_ERROR.ERR_MISSING_START_CHAR ↔
      charAtC (trimC input) 0 ≠ st.start_char) ∧
    (charAtC (trimC input) 0 = st.start_char →
      process st input = processFrom2 st ((trimC input).drop 1)) := by
  have hcont : charAtC (trimC input) 0 = st.start_char →
      process st input = processFrom2 st ((trimC input).drop 1) := by
    intro heq
    rw [process_factor_start]
    have : checkStart st (trimC input) = Except.ok (substrFromC (trimC input) 1) := by
      unfold checkStart
      rw [if_neg hs, if_pos heq]
    rw [this, substrFromC_drop]
  refine ⟨⟨?_, ?_⟩, hcont⟩
  · intro hres
    by_contra heq
    rw [hcont heq] at hres
    cases hx : parseFrom2 st ((trimC input).drop 1) with
    | error e =>
      simp only [processFrom2, hx] at hres
      rcases parseFrom2_error_cases st _ e hx with h1 | h1 <;> simp [h1] at hres
    | ok p =>
      simp only [processFrom2, hx] at hres
      rcases dispatch_result_cases p.args p.arg_count p.cmd_name st.command_dictionary with
        h1 | ⟨c, hm, he⟩
      · rw [h1] at hres
        exact absurd hres (by decide)
      · rw [he] at hres
        exact hh c hm p.args p.arg_count hres
  · intro hne
    rw [process_factor_start]
    have : checkStart st (trimC input) =
        Except.error CMD_ERROR.ERR_MISSING_START_CHAR := by
      unfold checkStart
      rw [if_neg hs, if_neg hne]
    rw [this]

/-- Claim C7 witness: with start char < and stop char > configured and an
empty registry, the line cmd arg1> (missing its start character) fails with
ERR_MISSING_START_CHAR. -/
theorem process_start_check_witness :
    process ⟨'<', '>', ' ', []⟩ (strA "cmd arg1>") =
      CMD_ERROR.ERR_MISSING_START_CHAR :=
  (process_start_check ⟨'<', '>', ' ', []⟩ (strA "cmd arg1>") (by decide)
      (by intro c hc; exact absurd hc (List.not_mem_nil c))).1.mpr (by decide)

/-- Claim C8: the pipeline itself never produces the reserved error codes
ERR_MISSING_DELIMITER, ERR_INVALID_CMD, ERR_TOO_FEW_ARGS, ERR_TOO_MANY_ARGS,
ERR_INVALID_ARG: whenever no registered callback returns a reserved code,
neither does process. -/
theorem process_reserved_codes (st : ParserState) (input : AString)
    (hh : ∀ c ∈ st.command_dictionary, ∀ a n, ¬ reservedError (c.callback a n)) :
    ¬ reservedError (process st input) := by
  cases hx : parseLine st input with
  | error e =>
    simp only [process, hx]
    rcases parseLine_error_cases st input e hx with h1 | h1 | h1 <;>
      (subst h1; simp [reservedError])
  | ok p =>
    simp only [process, hx]
    rcases dispatch_result_cases p.args p.arg_count p.cmd_name st.command_dictionary with
      h1 | ⟨c, hm, he⟩
    · rw [h1]
      simp [reservedError]
    · rw [he]
      exact hh c hm p.args p.arg_count

/-- Claim C8 witness: with a registry whose single handler returns ERR_NONE,
processing an unknown command never yields a reserved code. -/
theorem process_reserved_codes_witness :
    ¬ reservedError (process ⟨'\x00', '\x00', ' ',
        [⟨strA "cmd", fun _ _ => CMD_ERROR.ERR_NONE⟩]⟩ (strA "xyz")) :=
  process_reserved_codes
    ⟨'\x00', '\x00', ' ', [⟨strA "cmd", fun _ _ => CMD_ERROR.ERR_NONE⟩]⟩ (strA "xyz")
    (by
      intro c hc a n
      rw [List.mem_singleton] at hc
      subst hc
      simp [reservedError])

/-- splitArgString leaves the static state unchanged. -/
theorem splitArgStringSt_state (st : ParserState) (b : List AString) (s : AString)
    (c0 : Int) : (splitArgStringSt st b s c0).2 = st := rfl

/-- process leaves the static state unchanged. -/
theorem processSt_state (st : ParserState) (input : AString) :
    (processSt st input).2 = st := by
  cases h1 : checkStart st (trimC input) with
  | error e => simp [processSt, h1]
  | ok s1 =>
    cases h2 : checkStop st s1 with
    | error e => simp [processSt, h1, h2]
    | ok s2 =>
      cases h3 : idxOfC st.delimiter s2 with
      | none => simp [processSt, h1, h2, h3]
      | some i =>
        by_cases hl : (trimC (substrFromC s2 (i + 1))).length ≠ 0
        · simp only [processSt, h1, h2, h3, if_pos hl, splitArgStringSt]
          split <;> rfl
        · simp [processSt, h1, h2, h3, hl]

/-- Claim C9: neither process nor splitArgString mutates the configuration
or the registry: in state-passing form both return the state they were
given, so a second call on the same input returns the same result, and
setting the same dictionary twice is the same as setting it once. -/
theorem process_stateless (st : ParserState) (input : AString) (d2 : List CmdSpec)
    (b : List AString) (a : AString) (c0 : Int) :
    (processSt st input).2 = st ∧
      processSt (processSt st input).2 input = processSt st input ∧
      (splitArgStringSt st b a c0).2 = st ∧
      processSt (setCommandDictionary (setCommandDictionary st d2) d2) input =
        processSt (setCommandDictionary st d2) input := by
  refine ⟨processSt_state st input, ?_, splitArgStringSt_state st b a c0, rfl⟩
  rw [processSt_state st input]

end SerialCommand
